import Mathlib

/-!
Verification development for the CII resource-optimization repository.

The Python sources under `src/` are shallowly embedded below:
* `optimizer.py` — `ResourceOptimizerUI._fitness`, `optimize`,
  `get_assignment_analysis`, `_calculate_efficiency_score`;
* `scheduler.py` — `ScheduleBuilderUI.build_schedule`, `_calculate_end_date`.

Numeric values (Python ints/floats) are modelled as exact rationals `ℚ`.
Python `dict` skill maps are association lists `List (String × ℚ)`; a key that
may be absent from an employee dict (`emp.get("cost_per_hour", d)`) is an
`Option ℚ` field, `none` standing for the missing key.  A Python function that
can raise (`ZeroDivisionError`) or diverge (the business-day `while` loop)
returns an `Option`, with `none` standing for the raise / for exhausting the
termination fuel.  Dates are day indices `ℕ` with day 0 a Monday, so
`d % 7` coincides with Python's `datetime.weekday()` (Monday = 0).
-/

namespace CII

/-- A task, mirroring the JSON task dicts read by `optimizer.py` /
`scheduler.py` (`id`, `name`, `hours`, `priority`, `skills`). -/
structure Task where
  id : ℤ
  name : String
  hours : ℚ
  priority : String
  skills : List String
deriving DecidableEq

/-- An employee, mirroring the JSON employee dicts.  `cost_per_hour` is
`Option ℚ` because the code reads it with `emp.get("cost_per_hour", default)`;
`none` models the key being absent from the dict.  `skills` is the
skill-tag → proficiency mapping. -/
structure Employee where
  id : ℤ
  name : String
  daily_hours : ℚ
  cost_per_hour : Option ℚ
  skills : List (String × ℚ)
deriving DecidableEq

/-! ### Fitness evaluator (`optimizer.py`, `_fitness`, lines 64–122) -/

/-- The inner skill loop of `_fitness` (optimizer.py lines 85–91): for each
required skill, add `proficiency / 10` to the running score when the employee
has the skill, otherwise count one mismatch (each mismatch also contributes a
500 penalty, added in `geneStep`).  Returns
`(skill_match_score, mismatches for this gene)`. -/
def skillLoop (t : Task) (e : Employee) : ℚ × ℕ :=
  t.skills.foldl
    (fun acc sk =>
      match e.skills.lookup sk with
      | some prof => (acc.1 + prof / 10, acc.2)
      | none => (acc.1, acc.2 + 1))
    (0, 0)

/-- One iteration of the gene loop of `_fitness` (optimizer.py lines 77–107),
updating the accumulator `(total_penalty, total_cost, skill_mismatches)`. -/
def geneStep (t : Task) (e : Employee) (acc : ℚ × ℚ × ℕ) : ℚ × ℚ × ℕ :=
  let cph := e.cost_per_hour.getD 0
  let sl := skillLoop t e
  let p1 := acc.1 + 500 * (sl.2 : ℚ)
  let p2 := if sl.1 < (t.skills.length : ℚ) * (1 / 2) then p1 + 300 else p1
  let c1 := acc.2.1 + t.hours * cph
  let p3 := if t.hours < 20 ∧ 1500 < cph then p2 + 100 else p2
  let p4 := if t.priority = "high" ∧ 1400 < cph then p3 - 50 else p3
  (p4, c1, acc.2.2 + sl.2)

/-- The accumulation loop of `_fitness` over all genes: a gene whose employee
index is out of range is skipped (`continue` in the Python code); a task index
out of range would raise `IndexError` in Python and cannot occur for an
individual of the proper length, so it is likewise a no-op here. -/
def fitnessParts (tasks : List Task) (employees : List Employee)
    (ind : List ℕ) : ℚ × ℚ × ℕ :=
  ind.enum.foldl
    (fun acc g =>
      match employees[g.2]?, tasks[g.1]? with
      | some e, some t => geneStep t e acc
      | _, _ => acc)
    (0, 0, 0)

/-- The denominator `1.0 + total_penalty + total_cost/1000 + skill_mismatches*100`
of the fitness formula (optimizer.py line 111). -/
def fitnessDen (tasks : List Task) (employees : List Employee)
    (ind : List ℕ) : ℚ :=
  1 + (fitnessParts tasks employees ind).1
    + (fitnessParts tasks employees ind).2.1 / 1000
    + ((fitnessParts tasks employees ind).2.2 : ℚ) * 100

/-- The value returned by `_fitness` (optimizer.py lines 64–122) without its
history side effect: `some 0` on empty tasks/employees (the early return of
`(0.0,)`), `none` when the denominator is zero (Python would raise
`ZeroDivisionError`), otherwise `some (10000 / denominator)`. -/
def fitnessOpt (tasks : List Task) (employees : List Employee)
    (ind : List ℕ) : Option ℚ :=
  if tasks.isEmpty || employees.isEmpty then some 0
  else if fitnessDen tasks employees ind = 0 then none
  else some (10000 / fitnessDen tasks employees ind)

/-- One record of `self.optimization_history` (optimizer.py lines 114–119). -/
structure Metrics where
  fitness : ℚ
  penalty : ℚ
  cost : ℚ
  skill_mismatches : ℕ
deriving DecidableEq

/-- The optimizer state that `_fitness` can read or write: the task and
employee lists and the recorded optimization history. -/
structure OptState where
  tasks : List Task
  employees : List Employee
  history : List Metrics
deriving DecidableEq

/-- `_fitness` with its side effect (optimizer.py lines 64–122): returns the
updated optimizer state together with the fitness value.  The early return for
empty tasks/employees (lines 66–67) happens before the history append; `none`
models the `ZeroDivisionError` Python raises when the denominator is zero
(the exception propagates before the append on line 121 executes). -/
def fitnessRun (s : OptState) (ind : List ℕ) : Option (OptState × ℚ) :=
  if s.tasks.isEmpty || s.employees.isEmpty then some (s, 0)
  else if fitnessDen s.tasks s.employees ind = 0 then none
  else
    some
      ({ s with
          history := s.history ++
            [⟨10000 / fitnessDen s.tasks s.employees ind,
              (fitnessParts s.tasks s.employees ind).1,
              (fitnessParts s.tasks s.employees ind).2.1,
              (fitnessParts s.tasks s.employees ind).2.2⟩] },
        10000 / fitnessDen s.tasks s.employees ind)

/-- Concrete task used to exercise `fitnessRun`. -/
def mutTask : Task := ⟨1, "t", 10, "medium", []⟩

/-- Concrete employee used to exercise `fitnessRun`. -/
def mutEmp : Employee := ⟨1, "e", 8, some 100, []⟩

/-- Concrete optimizer state (empty history) used to exercise `fitnessRun`. -/
def mutState : OptState := ⟨[mutTask], [mutEmp], []⟩

/-! ### `optimize` (optimizer.py lines 124–164) -/

/-- The error taxonomy named by the specification (§7).  None of these error
classes exists anywhere in the source code. -/
inductive OptError where
  | configurationError
  | dataReferenceError
  | dateArithmeticError
deriving DecidableEq

/-- Possible outcomes of `optimize`: the `return None, None` early exit
(lines 126–127), a normal result, or a raised error (no code path produces
one). -/
inductive OptOutcome where
  | noResult
  | result (best : List ℕ) (log : List (ℕ × ℚ))
  | failure (e : OptError)
deriving DecidableEq

/-- `optimize` (optimizer.py lines 124–164) up to its input guard: with empty
tasks or employees it returns `None, None` at once; otherwise it allocates the
population and runs the generations, abstracted here as the continuation
`runGA` (that code is randomized; nothing before the guard touches it). -/
def optimizeOutcome (tasks : List Task) (employees : List Employee)
    (runGA : Unit → OptOutcome) : OptOutcome :=
  if tasks.isEmpty || employees.isEmpty then .noResult
  else runGA ()

/-! ### Assignment resolver (`get_assignment_analysis`, optimizer.py 166–209) -/

/-- `matched_skills` of one gene (optimizer.py lines 184–187): the required
skills whose key is present in the employee's skill dict. -/
def matchedSkills (t : Task) (e : Employee) : List String :=
  t.skills.filter (fun sk => (e.skills.lookup sk).isSome)

/-- `missing_skills` of one gene (optimizer.py lines 188–189): the required
skills whose key is absent from the employee's skill dict. -/
def missingSkills (t : Task) (e : Employee) : List String :=
  t.skills.filter (fun sk => (e.skills.lookup sk).isNone)

/-- `skill_match_percent` (optimizer.py lines 191–192):
`(len(matched)/len(required)) * 100`, and `100` when the task requires no
skills. -/
def skillMatchPercent (t : Task) (e : Employee) : ℚ :=
  if t.skills.isEmpty then 100
  else ((matchedSkills t e).length : ℚ) / (t.skills.length : ℚ) * 100

/-! ### Efficiency score (`_calculate_efficiency_score`, optimizer.py 211–244) -/

/-- Contribution of one required skill to the raw skill-match sum
(optimizer.py lines 228–230): `proficiency / 10` when the employee has the
skill, nothing otherwise. -/
def skillTerm (e : Employee) (sk : String) : ℚ :=
  match e.skills.lookup sk with
  | some prof => prof / 10
  | none => 0

/-- The skill-match factor (optimizer.py lines 227–231): the raw sum divided
by the number of required skills, or by 1 when no skills are required. -/
def skillMatchComponent (t : Task) (e : Employee) : ℚ :=
  (t.skills.foldl (fun acc sk => acc + skillTerm e sk) 0) /
    (if t.skills.isEmpty then 1 else (t.skills.length : ℚ))

/-- `avg_cost` (optimizer.py line 235): mean `cost_per_hour` over all
employees, 0 when the employee list is empty. -/
def avgCostPerHour (employees : List Employee) : ℚ :=
  if employees.isEmpty then 0
  else (employees.foldl (fun acc e => acc + e.cost_per_hour.getD 0) 0) /
    (employees.length : ℚ)

/-- Round-half-to-even to an integer, the tie-breaking rule of Python's
built-in `round`. -/
def roundHalfEven (q : ℚ) : ℤ :=
  if q - ⌊q⌋ < 1 / 2 then ⌊q⌋
  else if 1 / 2 < q - ⌊q⌋ then ⌊q⌋ + 1
  else if ⌊q⌋ % 2 = 0 then ⌊q⌋ else ⌊q⌋ + 1

/-- Python's `round(q, 2)`: round to two decimal places, ties to even. -/
def round2 (q : ℚ) : ℚ := (roundHalfEven (q * 100) : ℚ) / 100

/-- `_calculate_efficiency_score` (optimizer.py lines 211–244).  The result is
`round(score * 100, 2)`; `none` models the `ZeroDivisionError` raised on
line 237 when `avg_cost > 0` and the employee's `cost_per_hour` key is present
with value 0 (the `.get` default only applies to an absent key).  The 0.1
workload weight declared on line 221 is never summed into the score. -/
def effScore (employees : List Employee) (t : Task) (e : Employee) :
    Option ℚ :=
  if 0 < avgCostPerHour employees then
    if e.cost_per_hour.getD (avgCostPerHour employees) = 0 then none
    else
      some (round2 ((skillMatchComponent t e * (4 / 10)
        + min (avgCostPerHour employees /
            e.cost_per_hour.getD (avgCostPerHour employees)) (3 / 2) * (3 / 10)
        + min (e.cost_per_hour.getD 0 / 2000) 1 * (2 / 10)) * 100))
  else
    some (round2 ((skillMatchComponent t e * (4 / 10)
      + min (e.cost_per_hour.getD 0 / 2000) 1 * (2 / 10)) * 100))

/-! ### Hall of Fame (used by `optimize`, optimizer.py lines 130 and 151) -/

/-- An individual together with its computed fitness, as stored by the GA
engine. -/
structure ScoredInd where
  genes : List ℕ
  fit : ℚ
deriving DecidableEq

/-- Modelled from the spec: `deap.tools.HallOfFame(1).update`, the hall-of-fame
container instantiated on optimizer.py line 130 and updated on line 151, is
external library code not present under `src/`.  Per the specification it
keeps a single best-ever individual and replaces it only when an individual's
fitness strictly exceeds the recorded best (`>` comparison). -/
def hofUpdate (hof : Option ScoredInd) (pop : List ScoredInd) :
    Option ScoredInd :=
  pop.foldl
    (fun acc ind =>
      match acc with
      | none => some ind
      | some b => if b.fit < ind.fit then some ind else some b)
    hof

/-! ### Schedule builder (`scheduler.py`) -/

/-- The calendar configuration read by `build_schedule`
(scheduler.py lines 24–30): start date, working weekday numbers
(0 = Monday … 6 = Sunday), holiday dates. -/
structure CalendarConfig where
  start_date : ℕ
  work_days : List ℕ
  holidays : List ℕ
deriving DecidableEq

/-- One entry of the assignment list consumed by `build_schedule`
(the fields it reads on lines 42–43 and 75–76). -/
structure AssignmentRec where
  task_id : ℤ
  employee_id : ℤ
  skill_match_percent : ℚ
  efficiency_score : ℚ
deriving DecidableEq

/-- One schedule entry produced by `build_schedule`
(scheduler.py lines 64–77; the name fields are dropped). -/
structure ScheduleItem where
  task_id : ℤ
  employee_id : ℤ
  start_date : ℕ
  end_date : ℕ
  duration_days : ℕ
  hours : ℚ
  cost : ℚ
  skill_match_percent : ℚ
  efficiency_score : ℚ
deriving DecidableEq

/-- The working-day test of `_calculate_end_date` (scheduler.py line 96):
`current_date.weekday() in work_days and current_date not in holidays`. -/
def isWorkDay (wd hol : List ℕ) (d : ℕ) : Bool :=
  wd.contains (d % 7) && !(hol.contains d)

/-- `_calculate_end_date` (scheduler.py lines 87–99): advance one calendar day
at a time, counting a day as completed when it is a working day, until the
completed count reaches `days_needed`; the `while` loop is given explicit fuel,
`none` standing for non-termination within that fuel. -/
def calcEndDateAux (wd hol : List ℕ) (need : ℚ) :
    ℕ → ℕ → ℕ → Option ℕ
  | 0, _, _ => none
  | fuel + 1, cur, completed =>
    if (completed : ℚ) < need then
      if isWorkDay wd hol (cur + 1) then
        calcEndDateAux wd hol need fuel (cur + 1) (completed + 1)
      else calcEndDateAux wd hol need fuel (cur + 1) completed
    else some cur

/-- Number of working days in the half-open walk `(s, e]`, the count of days
the business-day walk actually completes between a task's start and end
dates. -/
def countWorkDays (wd hol : List ℕ) (s e : ℕ) : ℕ :=
  ((List.range (e - s)).map (fun i => s + 1 + i)).countP (isWorkDay wd hol)

/-- The assignment loop of `build_schedule` (scheduler.py lines 41–83):
`cursors` is the per-employee `current_date` map, `acc` the schedule built so
far.  An assignment whose task or employee id resolves to nothing is skipped
(lines 48–49); each produced item records
`duration_days = (end_date - start_date).days` and the employee's cursor moves
to `end_date + 1` (line 83). -/
def buildScheduleGo (tasks : List Task) (employees : List Employee)
    (cfg : CalendarConfig) (fuel : ℕ) :
    List AssignmentRec → List (ℤ × ℕ) → List ScheduleItem →
      Option (List ScheduleItem)
  | [], _, acc => some acc
  | a :: rest, cursors, acc =>
    match tasks.find? (fun t => t.id == a.task_id),
        employees.find? (fun e => e.id == a.employee_id) with
    | some t, some e =>
      let start := (cursors.lookup e.id).getD cfg.start_date
      match calcEndDateAux cfg.work_days cfg.holidays (t.hours / e.daily_hours)
          fuel start 0 with
      | none => none
      | some endD =>
        buildScheduleGo tasks employees cfg fuel rest
          (cursors.map fun kv => if kv.1 == e.id then (kv.1, endD + 1) else kv)
          (acc ++ [⟨a.task_id, a.employee_id, start, endD, endD - start,
            t.hours, t.hours * e.cost_per_hour.getD 0,
            a.skill_match_percent, a.efficiency_score⟩])
    | _, _ => buildScheduleGo tasks employees cfg fuel rest cursors acc

/-- `build_schedule` (scheduler.py lines 16–85): empty assignment, task or
employee list yields an empty schedule (lines 18–19); otherwise every
employee's cursor starts at the calendar start date (lines 33–38) and the
assignments are processed in order. -/
def buildSchedule (tasks : List Task) (employees : List Employee)
    (cfg : CalendarConfig) (fuel : ℕ) (assignment : List AssignmentRec) :
    Option (List ScheduleItem) :=
  if assignment.isEmpty || tasks.isEmpty || employees.isEmpty then some []
  else buildScheduleGo tasks employees cfg fuel assignment
    (employees.map fun e => (e.id, cfg.start_date)) []

/-! ## Theorems -/

/-! ### Generic helper lemmas -/

/-- Invariant preservation along a `List.foldl`. -/
theorem foldl_preserves {α β : Type} (P : β → Prop) (f : β → α → β)
    (l : List α) (b : β) (hb : P b)
    (hf : ∀ x, P x → ∀ a, a ∈ l → P (f x a)) : P (l.foldl f b) := by
  induction l generalizing b with
  | nil => exact hb
  | cons a l ih =>
    exact ih (f b a) (hf b hb a (List.mem_cons_self a l))
      (fun x hx a' ha' => hf x hx a' (List.mem_cons_of_mem a ha'))

/-- A `foldl` that only ever adds nonnegative quantities stays nonnegative. -/
theorem foldl_add_nonneg {α : Type} (g : α → ℚ) (l : List α) :
    ∀ c : ℚ, 0 ≤ c → (∀ a ∈ l, 0 ≤ g a) →
      0 ≤ l.foldl (fun acc a => acc + g a) c := by
  induction l with
  | nil => intro c hc _; exact hc
  | cons a l ih =>
    intro c hc h
    exact ih (c + g a) (add_nonneg hc (h a (List.mem_cons_self a l)))
      (fun x hx => h x (List.mem_cons_of_mem a hx))

/-- A `foldl` each of whose increments is bounded by `B` grows by at most
`length * B`. -/
theorem foldl_add_le {α : Type} (g : α → ℚ) (B : ℚ) (l : List α) :
    ∀ c : ℚ, (∀ a ∈ l, g a ≤ B) →
      l.foldl (fun acc a => acc + g a) c ≤ c + (l.length : ℚ) * B := by
  induction l with
  | nil => intro c _; simp
  | cons a l ih =>
    intro c h
    have h1 := ih (c + g a) (fun x hx => h x (List.mem_cons_of_mem a hx))
    have h2 : c + g a + (l.length : ℚ) * B ≤ c + ((a :: l).length : ℚ) * B := by
      have h3 := h a (List.mem_cons_self a l)
      simp only [List.length_cons]
      push_cast
      rw [add_mul, one_mul]
      linarith
    calc (a :: l).foldl (fun acc x => acc + g x) c
        = l.foldl (fun acc x => acc + g x) (c + g a) := rfl
      _ ≤ c + g a + (l.length : ℚ) * B := h1
      _ ≤ c + ((a :: l).length : ℚ) * B := h2

/-- The accumulated `total_cost` is nonnegative whenever all task hours and
all employee hourly costs are nonnegative. -/
theorem fitnessParts_cost_nonneg (tasks : List Task) (employees : List Employee)
    (ind : List ℕ) (ht : ∀ t ∈ tasks, 0 ≤ t.hours)
    (he : ∀ e ∈ employees, 0 ≤ e.cost_per_hour.getD 0) :
    0 ≤ (fitnessParts tasks employees ind).2.1 := by
  unfold fitnessParts
  apply foldl_preserves (fun acc : ℚ × ℚ × ℕ => 0 ≤ acc.2.1)
  · norm_num
  · intro x hx g _
    cases hemp : employees[g.2]? with
    | none => simpa [hemp] using hx
    | some e =>
      cases htask : tasks[g.1]? with
      | none => simpa [hemp, htask] using hx
      | some t =>
        have hmt : t ∈ tasks := List.getElem?_mem htask
        have hme : e ∈ employees := List.getElem?_mem hemp
        have h1 : 0 ≤ t.hours * e.cost_per_hour.getD 0 :=
          mul_nonneg (ht t hmt) (he e hme)
        simp only [hemp, htask, geneStep]
        exact add_nonneg hx h1

/-! ### C1 — fitness range -/

/-- C1, amended: with nonempty tasks and employees, nonnegative task hours and
hourly costs, and a nonnegative accumulated penalty, the fitness value is
defined, strictly positive and at most 10000. -/
theorem fitness_pos_le_10000 (tasks : List Task) (employees : List Employee)
    (ind : List ℕ) (h1 : tasks ≠ []) (h2 : employees ≠ [])
    (ht : ∀ t ∈ tasks, 0 ≤ t.hours)
    (he : ∀ e ∈ employees, 0 ≤ e.cost_per_hour.getD 0)
    (hp : 0 ≤ (fitnessParts tasks employees ind).1) :
    ∃ q, fitnessOpt tasks employees ind = some q ∧ 0 < q ∧ q ≤ 10000 := by
  have hc := fitnessParts_cost_nonneg tasks employees ind ht he
  have hm : (0 : ℚ) ≤ ((fitnessParts tasks employees ind).2.2 : ℚ) * 100 := by
    positivity
  have hden : 1 ≤ fitnessDen tasks employees ind := by
    unfold fitnessDen
    have : (0 : ℚ) ≤ (fitnessParts tasks employees ind).2.1 / 1000 := by
      positivity
    linarith
  have hdpos : 0 < fitnessDen tasks employees ind := lt_of_lt_of_le one_pos hden
  refine ⟨10000 / fitnessDen tasks employees ind, ?_, ?_, ?_⟩
  · unfold fitnessOpt
    rw [if_neg, if_neg]
    · exact ne_of_gt hdpos
    · simp [List.isEmpty_iff, h1, h2]
  · positivity
  · rw [div_le_iff₀ hdpos]
    nlinarith

/-- C1, counterexample: a single high-priority task of 20 hours assigned to an
employee costing 1500/hour receives the −50 seniority bonus, driving the
denominator to −19 and the fitness value below zero. -/
theorem fitness_negative_cex :
    ∃ q, fitnessOpt
        [⟨1, "t", 20, "high", []⟩]
        [⟨1, "e", 8, some 1500, []⟩]
        [0] = some q ∧ q < 0 := by
  refine ⟨-10000 / 19, ?_, by norm_num⟩
  norm_num [fitnessOpt, fitnessDen, fitnessParts, geneStep, skillLoop,
    List.enum, List.enumFrom]

/-- C1, witness for `fitness_pos_le_10000` at a concrete input. -/
theorem fitness_pos_le_10000_witness :
    ∃ q, fitnessOpt
        [⟨1, "t", 20, "medium", []⟩]
        [⟨1, "e", 8, some 1000, []⟩]
        [0] = some q ∧ 0 < q ∧ q ≤ 10000 :=
  fitness_pos_le_10000 _ _ [0] (by decide) (by decide)
    (by decide) (by decide)
    (by norm_num [fitnessParts, geneStep, skillLoop, List.enum, List.enumFrom])

/-! ### C7 — `_fitness` and the optimization history -/

/-- C7, amended: evaluating `_fitness` on nonempty tasks/employees appends
exactly one metrics record to the optimization history, leaves the task and
employee lists unchanged, and returns the same value as the pure fitness
function `fitnessOpt` (the score depends only on tasks, employees and the
individual). -/
theorem fitness_appends_one_record (s : OptState) (ind : List ℕ)
    (h1 : s.tasks ≠ []) (h2 : s.employees ≠ [])
    (hd : fitnessDen s.tasks s.employees ind ≠ 0) :
    ∃ v, fitnessRun s ind =
        some
          ({ s with
              history := s.history ++
                [⟨v, (fitnessParts s.tasks s.employees ind).1,
                  (fitnessParts s.tasks s.employees ind).2.1,
                  (fitnessParts s.tasks s.employees ind).2.2⟩] },
            v) ∧
      fitnessOpt s.tasks s.employees ind = some v := by
  refine ⟨10000 / fitnessDen s.tasks s.employees ind, ?_, ?_⟩
  · unfold fitnessRun
    rw [if_neg, if_neg hd]
    simp [List.isEmpty_iff, h1, h2]
  · unfold fitnessOpt
    rw [if_neg, if_neg hd]
    simp [List.isEmpty_iff, h1, h2]

/-- C7, counterexample: on a concrete state with empty history, one fitness
evaluation changes the recorded optimization history — `_fitness` is not a
pure function that leaves the optimizer state unchanged. -/
theorem fitness_mutates_history_cex :
    ∃ r, fitnessRun mutState [0] = some r ∧ r.1.history ≠ mutState.history := by
  refine ⟨(⟨[mutTask], [mutEmp], [⟨5000, 0, 1000, 0⟩]⟩, 5000), ?_, by decide⟩
  norm_num [fitnessRun, mutState, mutTask, mutEmp, fitnessDen, fitnessParts,
    geneStep, skillLoop, List.enum, List.enumFrom]

/-- C7, witness for `fitness_appends_one_record` at a concrete input. -/
theorem fitness_appends_one_record_witness :
    ∃ v, fitnessRun mutState [0] =
        some
          ({ mutState with
              history := mutState.history ++
                [⟨v, (fitnessParts mutState.tasks mutState.employees [0]).1,
                  (fitnessParts mutState.tasks mutState.employees [0]).2.1,
                  (fitnessParts mutState.tasks mutState.employees [0]).2.2⟩] },
            v) ∧
      fitnessOpt mutState.tasks mutState.employees [0] = some v :=
  fitness_appends_one_record mutState [0] (by decide) (by decide)
    (by norm_num [mutState, mutTask, mutEmp, fitnessDen, fitnessParts,
      geneStep, skillLoop, List.enum, List.enumFrom])

/-! ### C3 — `optimize` on empty input -/

/-- C3, amended: with an empty task list (or an empty employee list),
`optimize` returns `None, None` immediately — before the population is
allocated and before any generation runs (the guarded continuation is never
consulted) — rather than raising a `ConfigurationError`, which does not exist
in the code. -/
theorem optimize_empty_returns_none (tasks : List Task)
    (employees : List Employee) (runGA : Unit → OptOutcome)
    (h : tasks = [] ∨ employees = []) :
    optimizeOutcome tasks employees runGA = .noResult := by
  unfold optimizeOutcome
  rcases h with h | h <;> simp [h]

/-- C3, counterexample: on an empty task list `optimize` returns the
`None, None` outcome and in particular does not fail with
`ConfigurationError`. -/
theorem optimize_empty_no_error_cex :
    optimizeOutcome [] [⟨1, "e", 8, some 100, []⟩]
        (fun _ => .result [0] []) = .noResult ∧
      optimizeOutcome [] [⟨1, "e", 8, some 100, []⟩]
        (fun _ => .result [0] []) ≠ .failure .configurationError := by
  constructor <;> decide

/-- C3, witness for `optimize_empty_returns_none` at a concrete input. -/
theorem optimize_empty_returns_none_witness :
    optimizeOutcome [] [⟨1, "e", 8, some 100, []⟩]
      (fun _ => .result [0] []) = .noResult :=
  optimize_empty_returns_none [] [⟨1, "e", 8, some 100, []⟩]
    (fun _ => .result [0] []) (Or.inl rfl)

/-! ### C8 / C10 — skill matching in the assignment resolver -/

/-- A successful association-list lookup witnesses membership. -/
theorem mem_of_lookup_eq_some {l : List (String × ℚ)} {k : String} {b : ℚ}
    (h : l.lookup k = some b) : (k, b) ∈ l := by
  rcases List.lookup_eq_some_iff.mp h with ⟨l₁, l₂, rfl, -⟩
  simp

/-- C8: `skill_match_percent` always lies in [0, 100]; it is 100 when the task
requires no skills, and otherwise equals
`100 × |matched_skills| / |required skills|`. -/
theorem skill_match_percent_spec (t : Task) (e : Employee) :
    (0 ≤ skillMatchPercent t e ∧ skillMatchPercent t e ≤ 100) ∧
      (t.skills = [] → skillMatchPercent t e = 100) ∧
      (t.skills ≠ [] →
        skillMatchPercent t e =
          100 * ((matchedSkills t e).length : ℚ) / (t.skills.length : ℚ)) := by
  by_cases h : t.skills = []
  · refine ⟨⟨?_, ?_⟩, fun _ => ?_, fun hne => absurd h hne⟩ <;>
      simp [skillMatchPercent, h]
  · have hempty : t.skills.isEmpty = false := by
      simpa [List.isEmpty_iff] using h
    have hval : skillMatchPercent t e =
        ((matchedSkills t e).length : ℚ) / (t.skills.length : ℚ) * 100 := by
      simp [skillMatchPercent, hempty]
    have hnpos : (0 : ℚ) < (t.skills.length : ℚ) := by
      exact_mod_cast List.length_pos.mpr h
    have hmn : ((matchedSkills t e).length : ℚ) ≤ (t.skills.length : ℚ) := by
      exact_mod_cast List.length_filter_le _ t.skills
    refine ⟨⟨?_, ?_⟩, fun heq => absurd heq h, fun _ => ?_⟩
    · rw [hval]; positivity
    · rw [hval]
      have hdiv : ((matchedSkills t e).length : ℚ) / (t.skills.length : ℚ) ≤ 1 := by
        rw [div_le_one hnpos]; exact hmn
      nlinarith
    · rw [hval]; ring

/-- C8, witness for `skill_match_percent_spec` at a concrete input (its inner
implication discharged at a nonempty skill list). -/
theorem skill_match_percent_spec_witness :
    skillMatchPercent ⟨1, "t", 10, "medium", ["a", "b"]⟩
        ⟨1, "e", 8, some 100, [("a", 5)]⟩ =
      100 * ((matchedSkills ⟨1, "t", 10, "medium", ["a", "b"]⟩
        ⟨1, "e", 8, some 100, [("a", 5)]⟩).length : ℚ) /
        ((["a", "b"] : List String).length : ℚ) :=
  (skill_match_percent_spec ⟨1, "t", 10, "medium", ["a", "b"]⟩
    ⟨1, "e", 8, some 100, [("a", 5)]⟩).2.2 (by decide)

/-- C10: a required skill counts as matched exactly when its key is present in
the employee's skill mapping, regardless of the proficiency value: if every
required skill key is present, `missing_skills` is empty and
`skill_match_percent` is 100. -/
theorem match_ignores_proficiency (t : Task) (e : Employee)
    (h : ∀ sk ∈ t.skills, ((e.skills.lookup sk)).isSome = true) :
    matchedSkills t e = t.skills ∧ missingSkills t e = [] ∧
      skillMatchPercent t e = 100 := by
  have hmatched : matchedSkills t e = t.skills :=
    List.filter_eq_self.mpr h
  have hmissing : missingSkills t e = [] := by
    refine List.filter_eq_nil_iff.mpr fun sk hsk => ?_
    have h2 := h sk hsk
    cases hcase : e.skills.lookup sk with
    | none => rw [hcase] at h2; simp at h2
    | some v => simp [hcase]
  refine ⟨hmatched, hmissing, ?_⟩
  by_cases hnil : t.skills = []
  · simp [skillMatchPercent, hnil]
  · have hempty : t.skills.isEmpty = false := by
      simpa [List.isEmpty_iff] using hnil
    have hnz : ((t.skills.length : ℚ)) ≠ 0 := by
      have : (0 : ℚ) < (t.skills.length : ℚ) := by
        exact_mod_cast List.length_pos.mpr hnil
      exact ne_of_gt this
    simp [skillMatchPercent, hempty, hmatched, div_self hnz]

/-- C10, witness for `match_ignores_proficiency`: an employee holding both
required skills at proficiency 0 still matches fully. -/
theorem match_ignores_proficiency_witness :
    matchedSkills ⟨1, "t", 10, "medium", ["a", "b"]⟩
        ⟨2, "e", 8, some 100, [("a", 0), ("b", 0)]⟩ = ["a", "b"] ∧
      missingSkills ⟨1, "t", 10, "medium", ["a", "b"]⟩
        ⟨2, "e", 8, some 100, [("a", 0), ("b", 0)]⟩ = [] ∧
      skillMatchPercent ⟨1, "t", 10, "medium", ["a", "b"]⟩
        ⟨2, "e", 8, some 100, [("a", 0), ("b", 0)]⟩ = 100 :=
  match_ignores_proficiency ⟨1, "t", 10, "medium", ["a", "b"]⟩
    ⟨2, "e", 8, some 100, [("a", 0), ("b", 0)]⟩ (by decide)

/-! ### C9 — Hall-of-Fame monotonicity -/

/-- One hall-of-fame update never lowers the recorded fitness. -/
theorem hofUpdate_fit_mono (pop : List ScoredInd) :
    ∀ b : ScoredInd,
      ∃ b', hofUpdate (some b) pop = some b' ∧ b.fit ≤ b'.fit := by
  induction pop with
  | nil => exact fun b => ⟨b, rfl, le_refl _⟩
  | cons i rest ih =>
    intro b
    show ∃ b', rest.foldl _ (if b.fit < i.fit then some i else some b) =
      some b' ∧ b.fit ≤ b'.fit
    by_cases h : b.fit < i.fit
    · rw [if_pos h]
      obtain ⟨b', hb', hle⟩ := ih i
      exact ⟨b', hb', le_trans (le_of_lt h) hle⟩
    · rw [if_neg h]
      exact ih b

/-- C9: across any sequence of generations, successive hall-of-fame updates
(each replacing the stored elite only on strictly greater fitness) never
decrease the recorded best fitness. -/
theorem hof_fitness_never_decreases (b : ScoredInd)
    (gens : List (List ScoredInd)) :
    ∃ b', List.foldl hofUpdate (some b) gens = some b' ∧ b.fit ≤ b'.fit := by
  induction gens generalizing b with
  | nil => exact ⟨b, rfl, le_refl _⟩
  | cons pop rest ih =>
    obtain ⟨b1, hb1, hle1⟩ := hofUpdate_fit_mono pop b
    simp only [List.foldl_cons, hb1]
    obtain ⟨b2, hb2, hle2⟩ := ih b1
    exact ⟨b2, hb2, le_trans hle1 hle2⟩

/-! ### C4 / C6 — efficiency score -/

/-- The rounded integer never falls below an integer lower bound of the
argument. -/
theorem le_roundHalfEven {q : ℚ} {n : ℤ} (h : (n : ℚ) ≤ q) :
    n ≤ roundHalfEven q := by
  have hf : n ≤ ⌊q⌋ := Int.le_floor.mpr h
  unfold roundHalfEven
  split_ifs <;> omega

/-- The rounded integer never exceeds an integer upper bound of the
argument. -/
theorem roundHalfEven_le {q : ℚ} {n : ℤ} (h : q ≤ (n : ℚ)) :
    roundHalfEven q ≤ n := by
  have hf : ⌊q⌋ ≤ n := by
    have := Int.floor_le_floor h
    rwa [Int.floor_intCast] at this
  have hup : 1 / 2 ≤ q - ⌊q⌋ → ⌊q⌋ + 1 ≤ n := by
    intro hr
    have hlt : (⌊q⌋ : ℚ) < (n : ℚ) := by linarith
    exact Int.lt_iff_add_one_le.mp (by exact_mod_cast hlt)
  unfold roundHalfEven
  split_ifs with h1 h2 h3
  · exact hf
  · exact hup (by linarith)
  · exact hf
  · exact hup (by linarith)

/-- Rounding to two decimals preserves nonnegativity. -/
theorem round2_nonneg {q : ℚ} (h : 0 ≤ q) : 0 ≤ round2 q := by
  unfold round2
  have : (0 : ℤ) ≤ roundHalfEven (q * 100) :=
    le_roundHalfEven (by push_cast; linarith)
  have h2 : (0 : ℚ) ≤ (roundHalfEven (q * 100) : ℚ) := by exact_mod_cast this
  linarith

/-- Rounding to two decimals preserves the bound 105. -/
theorem round2_le_105 {q : ℚ} (h : q ≤ 105) : round2 q ≤ 105 := by
  unfold round2
  have : roundHalfEven (q * 100) ≤ (10500 : ℤ) :=
    roundHalfEven_le (by push_cast; linarith)
  have h2 : ((roundHalfEven (q * 100) : ℚ)) ≤ 10500 := by exact_mod_cast this
  linarith

/-- Each per-skill contribution to the efficiency skill sum lies in [0, 1]
when all proficiencies lie in [0, 10]. -/
theorem skillTerm_bounds (e : Employee)
    (hp : ∀ p ∈ e.skills, 0 ≤ p.2 ∧ p.2 ≤ 10) (sk : String) :
    0 ≤ skillTerm e sk ∧ skillTerm e sk ≤ 1 := by
  unfold skillTerm
  cases hl : e.skills.lookup sk with
  | none => norm_num
  | some prof =>
    have hmem : (sk, prof) ∈ e.skills := mem_of_lookup_eq_some hl
    have hb := hp (sk, prof) hmem
    constructor
    · exact div_nonneg hb.1 (by norm_num)
    · rw [div_le_one (by norm_num)]
      exact hb.2

/-- The skill-match factor of the efficiency score lies in [0, 1] when all
proficiencies lie in [0, 10]. -/
theorem skillMatchComponent_bounds (t : Task) (e : Employee)
    (hp : ∀ p ∈ e.skills, 0 ≤ p.2 ∧ p.2 ≤ 10) :
    0 ≤ skillMatchComponent t e ∧ skillMatchComponent t e ≤ 1 := by
  have hnum0 : 0 ≤ t.skills.foldl (fun acc sk => acc + skillTerm e sk) 0 :=
    foldl_add_nonneg _ _ 0 le_rfl (fun sk _ => (skillTerm_bounds e hp sk).1)
  have hnum1 : t.skills.foldl (fun acc sk => acc + skillTerm e sk) 0 ≤
      0 + (t.skills.length : ℚ) * 1 :=
    foldl_add_le _ _ _ 0 (fun sk _ => (skillTerm_bounds e hp sk).2)
  unfold skillMatchComponent
  by_cases h : t.skills.isEmpty
  · rw [if_pos h]
    have : t.skills = [] := List.isEmpty_iff.mp h
    rw [this] at hnum0 hnum1 ⊢
    norm_num
  · rw [if_neg h]
    have hne : t.skills ≠ [] := fun hh => h (by simp [hh])
    have hlen : (0 : ℚ) < (t.skills.length : ℚ) := by
      exact_mod_cast List.length_pos.mpr hne
    constructor
    · positivity
    · rw [div_le_one hlen]
      linarith

/-- C4, amended: when all the employee's proficiencies lie in [0, 10], the
employee's hourly cost is nonnegative and not recorded as exactly 0, the
efficiency score is defined and lies in [0, 105] — not [0, 100]: the cost
component alone reaches `min(avg/cost, 1.5) × 0.3 = 0.45`, so the weighted sum
`0.4 + 0.45 + 0.2` tops out at 1.05, i.e. a score of 105. -/
theorem efficiency_score_bounds (employees : List Employee) (t : Task)
    (e : Employee) (hp : ∀ p ∈ e.skills, 0 ≤ p.2 ∧ p.2 ≤ 10)
    (hec : 0 ≤ e.cost_per_hour.getD 0)
    (hez : e.cost_per_hour ≠ some 0) :
    ∃ q, effScore employees t e = some q ∧ 0 ≤ q ∧ q ≤ 105 := by
  have hb := skillMatchComponent_bounds t e hp
  have hexp0 : 0 ≤ min (e.cost_per_hour.getD 0 / 2000) 1 :=
    le_min (by positivity) zero_le_one
  have hexp1 : min (e.cost_per_hour.getD 0 / 2000) 1 ≤ 1 := min_le_right _ _
  unfold effScore
  by_cases havg : 0 < avgCostPerHour employees
  · rw [if_pos havg]
    have hcpos : 0 < e.cost_per_hour.getD (avgCostPerHour employees) := by
      cases hc : e.cost_per_hour with
      | none => simpa using havg
      | some v =>
        have hv0 : 0 ≤ v := by simpa [hc] using hec
        have hvne : v ≠ 0 := fun h0 => hez (by rw [hc, h0])
        simpa using lt_of_le_of_ne hv0 (Ne.symm hvne)
    rw [if_neg (ne_of_gt hcpos)]
    have hr0 : 0 ≤ min (avgCostPerHour employees /
        e.cost_per_hour.getD (avgCostPerHour employees)) (3 / 2) :=
      le_min (by positivity) (by norm_num)
    have hr1 : min (avgCostPerHour employees /
        e.cost_per_hour.getD (avgCostPerHour employees)) (3 / 2) ≤ 3 / 2 :=
      min_le_right _ _
    refine ⟨_, rfl, round2_nonneg (by nlinarith), round2_le_105 (by nlinarith)⟩
  · rw [if_neg havg]
    refine ⟨_, rfl, round2_nonneg (by nlinarith), round2_le_105 (by nlinarith)⟩

/-- C4, counterexample: against a colleague costing 100000/hour, an employee
costing 2000/hour with full proficiency 10 on the single required skill scores
`100 × (1.0×0.4 + 1.5×0.3 + 1.0×0.2) = 105 > 100`. -/
theorem efficiency_score_above_100_cex :
    ∃ q, effScore
        [⟨1, "a", 8, some 2000, [("s", 10)]⟩, ⟨2, "b", 8, some 100000, []⟩]
        ⟨1, "t", 10, "medium", ["s"]⟩
        ⟨1, "a", 8, some 2000, [("s", 10)]⟩ = some q ∧ 100 < q := by
  refine ⟨105, ?_, by norm_num⟩
  have h1 : avgCostPerHour
      [⟨1, "a", 8, some 2000, [("s", 10)]⟩, ⟨2, "b", 8, some 100000, []⟩] =
      51000 := by
    norm_num [avgCostPerHour]
  have h2 : skillMatchComponent ⟨1, "t", 10, "medium", ["s"]⟩
      ⟨1, "a", 8, some 2000, [("s", 10)]⟩ = 1 := by
    norm_num [skillMatchComponent, skillTerm, List.lookup]
  rw [effScore, h1, h2]
  norm_num [round2, roundHalfEven]

/-- C4, witness for `efficiency_score_bounds` at a concrete input. -/
theorem efficiency_score_bounds_witness :
    ∃ q, effScore
        [⟨1, "a", 8, some 2000, [("s", 10)]⟩, ⟨2, "b", 8, some 100000, []⟩]
        ⟨1, "t", 10, "medium", ["s"]⟩
        ⟨1, "a", 8, some 2000, [("s", 10)]⟩ = some q ∧ 0 ≤ q ∧ q ≤ 105 :=
  efficiency_score_bounds _ _ _ (by decide) (by decide) (by decide)

/-- C6: with an employee whose `cost_per_hour` key is present with value 0
(and a positive average cost), `_calculate_efficiency_score` raises
`ZeroDivisionError` — the `.get("cost_per_hour", avg_cost)` default guards
only an absent key, not a stored 0 — instead of treating the cost as the
average as the specification prescribes. -/
theorem efficiency_zero_cost_raises :
    effScore [⟨1, "a", 8, some 0, []⟩, ⟨2, "b", 8, some 100, []⟩]
      ⟨1, "t", 10, "medium", []⟩ ⟨1, "a", 8, some 0, []⟩ = none := by
  have h1 : avgCostPerHour [⟨1, "a", 8, some 0, []⟩, ⟨2, "b", 8, some 100, []⟩]
      = 50 := by norm_num [avgCostPerHour]
  rw [effScore, h1]
  norm_num

/-! ### C2 / C5 — the business-day walk and schedule durations -/

/-- With an empty working-weekday set no day ever qualifies, so the walk of
`_calculate_end_date` never returns, whatever fuel it is given. -/
theorem calcEndDate_no_workdays (hol : List ℕ) (need : ℚ) :
    ∀ (fuel cur completed : ℕ), (completed : ℚ) < need →
      calcEndDateAux [] hol need fuel cur completed = none := by
  intro fuel
  induction fuel with
  | zero => intro cur completed _; rfl
  | succ n ih =>
    intro cur completed h
    have hw : isWorkDay [] hol (cur + 1) = false := by simp [isWorkDay]
    simp only [calcEndDateAux, if_pos h, hw]
    simpa using ih (cur + 1) completed h

/-- The walk never moves backwards: a returned end date is at least the
start date. -/
theorem calcEndDateAux_le (wd hol : List ℕ) (need : ℚ) :
    ∀ (fuel cur completed endD : ℕ),
      calcEndDateAux wd hol need fuel cur completed = some endD →
      cur ≤ endD := by
  intro fuel
  induction fuel with
  | zero => intro cur completed endD h; exact absurd h (by simp [calcEndDateAux])
  | succ n ih =>
    intro cur completed endD h
    simp only [calcEndDateAux] at h
    by_cases hc : (completed : ℚ) < need
    · rw [if_pos hc] at h
      by_cases hw : isWorkDay wd hol (cur + 1) = true
      · rw [if_pos hw] at h
        have := ih (cur + 1) (completed + 1) endD h
        omega
      · rw [if_neg hw] at h
        have := ih (cur + 1) completed endD h
        omega
    · rw [if_neg hc] at h
      cases h
      omega

/-- When at least one full business day is needed, the walk strictly advances
past the start date. -/
theorem calcEndDateAux_lt (wd hol : List ℕ) (need : ℚ) (fuel cur endD : ℕ)
    (hn : 0 < need)
    (h : calcEndDateAux wd hol need fuel cur 0 = some endD) : cur < endD := by
  cases fuel with
  | zero => exact absurd h (by simp [calcEndDateAux])
  | succ n =>
    simp only [calcEndDateAux] at h
    rw [if_pos (by exact_mod_cast hn)] at h
    by_cases hw : isWorkDay wd hol (cur + 1) = true
    · rw [if_pos hw] at h
      have := calcEndDateAux_le wd hol need n (cur + 1) 1 endD h
      omega
    · rw [if_neg hw] at h
      have := calcEndDateAux_le wd hol need n (cur + 1) 0 endD h
      omega

/-- C2: `build_schedule` performs no up-front check of the calendar — no
`DateArithmeticError` exists anywhere in the code — and on a calendar whose
working-weekday set is empty the business-day walk inside
`_calculate_end_date` never terminates: for every fuel bound the embedded run
fails to produce a schedule. -/
theorem build_schedule_no_workdays_diverges (fuel : ℕ) :
    buildSchedule [⟨1, "t", 8, "medium", []⟩] [⟨1, "e", 8, some 100, []⟩]
      ⟨0, [], []⟩ fuel [⟨1, 1, 100, 50⟩] = none := by
  unfold buildSchedule
  rw [if_neg (by decide)]
  simp only [buildScheduleGo, List.find?, List.lookup]
  norm_num
  rw [calcEndDate_no_workdays [] 1 fuel 0 0 (by norm_num)]

/-- Every item emitted by the schedule loop records
`duration_days = end_date − start_date` with a strictly later end date,
provided all task hours and all daily capacities are positive. -/
theorem buildScheduleGo_duration (tasks : List Task)
    (employees : List Employee) (cfg : CalendarConfig) (fuel : ℕ)
    (ht : ∀ t ∈ tasks, 0 < t.hours) (he : ∀ e ∈ employees, 0 < e.daily_hours) :
    ∀ (assignment : List AssignmentRec) (cursors : List (ℤ × ℕ))
      (acc items : List ScheduleItem),
      (∀ it ∈ acc, it.duration_days = it.end_date - it.start_date ∧
        it.start_date < it.end_date) →
      buildScheduleGo tasks employees cfg fuel assignment cursors acc =
        some items →
      ∀ it ∈ items, it.duration_days = it.end_date - it.start_date ∧
        it.start_date < it.end_date := by
  intro assignment
  induction assignment with
  | nil =>
    intro cursors acc items hacc h it hit
    simp only [buildScheduleGo, Option.some.injEq] at h
    subst h
    exact hacc it hit
  | cons a rest ih =>
    intro cursors acc items hacc h it hit
    simp only [buildScheduleGo] at h
    cases hft : tasks.find? (fun t => t.id == a.task_id) with
    | none =>
      rw [hft] at h
      exact ih cursors acc items hacc h it hit
    | some t =>
      rw [hft] at h
      cases hfe : employees.find? (fun e => e.id == a.employee_id) with
      | none =>
        rw [hfe] at h
        exact ih cursors acc items hacc h it hit
      | some e =>
        rw [hfe] at h
        simp only [] at h
        cases hend : calcEndDateAux cfg.work_days cfg.holidays
            (t.hours / e.daily_hours) fuel
            ((cursors.lookup e.id).getD cfg.start_date) 0 with
        | none => rw [hend] at h; exact absurd h (by simp)
        | some endD =>
          rw [hend] at h
          have hneed : 0 < t.hours / e.daily_hours :=
            div_pos (ht t (List.mem_of_find?_eq_some hft))
              (he e (List.mem_of_find?_eq_some hfe))
          have hlt := calcEndDateAux_lt cfg.work_days cfg.holidays
            (t.hours / e.daily_hours) fuel
            ((cursors.lookup e.id).getD cfg.start_date) endD hneed hend
          refine ih _ _ items ?_ h it hit
          intro it' hit'
          rcases List.mem_append.mp hit' with hmem | hmem
          · exact hacc it' hmem
          · have : it' = ⟨a.task_id, a.employee_id,
                (cursors.lookup e.id).getD cfg.start_date, endD,
                endD - (cursors.lookup e.id).getD cfg.start_date, t.hours,
                t.hours * e.cost_per_hour.getD 0,
                a.skill_match_percent, a.efficiency_score⟩ := by
              simpa using hmem
            subst this
            exact ⟨rfl, hlt⟩

/-- C5, amended: every `ScheduleItem` records
`duration_days = (end_date − start_date)` — a count of calendar days, not of
business days — and this count is at least 1 whenever every task has positive
hours and every employee positive daily capacity. -/
theorem schedule_item_duration (tasks : List Task) (employees : List Employee)
    (cfg : CalendarConfig) (fuel : ℕ) (assignment : List AssignmentRec)
    (items : List ScheduleItem)
    (ht : ∀ t ∈ tasks, 0 < t.hours)
    (he : ∀ e ∈ employees, 0 < e.daily_hours)
    (h : buildSchedule tasks employees cfg fuel assignment = some items) :
    ∀ it ∈ items, it.duration_days = it.end_date - it.start_date ∧
      1 ≤ it.duration_days := by
  unfold buildSchedule at h
  by_cases hc : (assignment.isEmpty || tasks.isEmpty || employees.isEmpty) = true
  · rw [if_pos hc] at h
    cases h
    intro it hit
    simp at hit
  · rw [if_neg hc] at h
    have hall := buildScheduleGo_duration tasks employees cfg fuel ht he
      assignment _ [] items (by simp) h
    intro it hit
    obtain ⟨h1, h2⟩ := hall it hit
    exact ⟨h1, by omega⟩

/-- C5, counterexample: a one-business-day task started on a Friday (day 4;
day 0 is a Monday) ends on the following Monday (day 7): the stored
`duration_days` is the calendar difference 3, while the walk completed exactly
1 business day — the recorded duration is not the business-day count. -/
theorem schedule_duration_not_business_days_cex :
    buildSchedule [⟨1, "t", 8, "medium", []⟩] [⟨1, "e", 8, some 100, []⟩]
        ⟨4, [0, 1, 2, 3, 4], []⟩ 10 [⟨1, 1, 100, 50⟩] =
      some [⟨1, 1, 4, 7, 3, 8, 800, 100, 50⟩] ∧
    countWorkDays [0, 1, 2, 3, 4] [] 4 7 = 1 ∧ (3 : ℕ) ≠ 1 := by
  refine ⟨?_, by decide, by decide⟩
  unfold buildSchedule
  rw [if_neg (by decide)]
  simp only [buildScheduleGo, List.find?, List.lookup]
  norm_num [calcEndDateAux, isWorkDay]

/-- C5, witness for `schedule_item_duration` on a concrete schedule run
starting on a Monday. -/
theorem schedule_item_duration_witness :
    (⟨1, 1, 0, 1, 1, 8, 800, 100, 50⟩ : ScheduleItem).duration_days =
        (⟨1, 1, 0, 1, 1, 8, 800, 100, 50⟩ : ScheduleItem).end_date -
          (⟨1, 1, 0, 1, 1, 8, 800, 100, 50⟩ : ScheduleItem).start_date ∧
      1 ≤ (⟨1, 1, 0, 1, 1, 8, 800, 100, 50⟩ : ScheduleItem).duration_days :=
  schedule_item_duration [⟨1, "t", 8, "medium", []⟩]
    [⟨1, "e", 8, some 100, []⟩] ⟨0, [0, 1, 2, 3, 4], []⟩ 10 [⟨1, 1, 100, 50⟩]
    [⟨1, 1, 0, 1, 1, 8, 800, 100, 50⟩] (by decide) (by decide)
    (by
      unfold buildSchedule
      rw [if_neg (by decide)]
      simp only [buildScheduleGo, List.find?, List.lookup]
      norm_num [calcEndDateAux, isWorkDay])
    ⟨1, 1, 0, 1, 1, 8, 800, 100, 50⟩ (by simp)

end CII
